import Mathlib

/-!
Verification of the streaming speech-relay service.

This file gives a shallow embedding of the two source files of the
repository and proves properties of the embedded functions.

From `clova_grpc_client.py`:
* `metadataSets`   embeds `ClovaSpeechClient._metadata_sets` (lines 54-63);
* `requestIter`    embeds `ClovaSpeechClient._request_iter` (lines 65-85),
  acting on the sequence of values dequeued from the shared audio queue
  (`some c` is an audio chunk, `none` is the terminal sentinel `None`);
* `recognize`      embeds the negotiation loop of
  `ClovaSpeechClient.recognize` (lines 99-144); the result of one stream
  attempt for a given (metadata, method) pair is abstracted into an
  `AttemptOutcome` oracle, mirroring the `try/except` classification of
  the source.

From `main.py`:
* `langShort`       embeds the language mapping on line 250,
  `(lang or "ko-KR").split("-")[0].lower()`;
* `handleContents`  embeds the per-response normalisation of
  `websocket_transcribe_stream.response_handler` (lines 267-297), taking
  the raw `contents` string together with the result of `json.loads`
  (`none` models a parse failure);
* `responseHandler` folds `handleContents` over a whole response stream.
-/

/-- Raw audio chunk: a byte payload, modelled as a list of byte values.
The Python truthiness test `if not chunk` is emptiness of the payload. -/
abbrev Chunk := List Nat

/-- One value dequeued from the audio queue: `some c` is a chunk, `none` is
the terminal sentinel (the `None` enqueued by `main.py` on shutdown). -/
abbrev QItem := Option Chunk

/-- Modelled from the spec: the audio-encoding enum of the Variant A request
(the generated module `clovaspeech_pb2` is not under `src/`); the client
only ever uses `LINEAR16`. -/
inductive AudioEncoding
  | linear16
  deriving DecidableEq

/-- Modelled from the spec: the Variant A `RecognitionConfig` message with
fields `language`, `encoding`, `sampleRateHertz`, `wordAlignment`,
`fullText` (spec section 6, Variant A). -/
structure RecognitionConfig where
  language : String
  encoding : AudioEncoding
  sampleRateHertz : Nat
  wordAlignment : Bool
  fullText : Bool
  deriving DecidableEq

/-- Modelled from the spec: the Variant A one-of request message — it
carries either a Config field or an `audioContent` byte field, and nothing
else (in particular no sequence-id field). -/
inductive RecognitionRequest
  | config (c : RecognitionConfig)
  | audioContent (chunk : Chunk)
  deriving DecidableEq

/-- The config built by `_request_iter` (clova_grpc_client.py lines 69-75). -/
def mkConfig (language : String) : RecognitionConfig :=
  ⟨language, AudioEncoding.linear16, 16000, true, true⟩

/-- Loop body of `_request_iter` (lines 79-85): dequeue until the sentinel;
empty chunks are skipped (`if not chunk: continue`), each non-empty chunk
yields one `audio_content` message; the first sentinel ends the stream. -/
def requestIterBody : List QItem → List RecognitionRequest
  | [] => []
  | none :: _ => []
  | some c :: rest =>
    if c = [] then requestIterBody rest
    else RecognitionRequest.audioContent c :: requestIterBody rest

/-- Whole of `_request_iter` (lines 65-85): the config message is yielded
first, then the loop body runs over the dequeued items. -/
def requestIter (language : String) (q : List QItem) : List RecognitionRequest :=
  RecognitionRequest.config (mkConfig language) :: requestIterBody q

/-- A run of `_request_iter` interrupted after `n` dequeues (the failing
stream attempt cancels the generator): returns the messages produced so
far and the items still in the queue. Hitting the sentinel ends the run
early, exactly as in `requestIterBody`. -/
def requestIterN : Nat → List QItem → List RecognitionRequest × List QItem
  | 0, q => ([], q)
  | _ + 1, [] => ([], [])
  | _ + 1, none :: rest => ([], rest)
  | n + 1, some c :: rest =>
    let r := requestIterN n rest
    (if c = [] then r.1 else RecognitionRequest.audioContent c :: r.1, r.2)

/-- The chunks carried by the `audio_content` messages of a message list. -/
def audioChunks (l : List RecognitionRequest) : List Chunk :=
  l.filterMap fun m =>
    match m with
    | RecognitionRequest.audioContent c => some c
    | _ => none

/-- The `audio_content` (Data) messages of a message list. -/
def dataMessages (l : List RecognitionRequest) : List RecognitionRequest :=
  l.filter fun m =>
    match m with
    | RecognitionRequest.audioContent _ => true
    | _ => false

/-- Header metadata of one authentication candidate. -/
abbrev Metadata := List (String × String)

/-- Fully qualified gRPC method path. -/
abbrev Method := String

/-- Embeds `_METHOD_CANDIDATES` (clova_grpc_client.py lines 10-14). -/
def METHOD_CANDIDATES : List Method :=
  ["/ncloud.ai.clovaspeech.v1.ClovaSpeechRecognizer/Recognize",
   "/ncloud.ai.clovaspeech.external.v1.ClovaSpeechRecognizer/Recognize",
   "/external.v1.ClovaSpeechRecognizer/Recognize"]

/-- Embeds `ClovaSpeechClient._metadata_sets` (lines 54-63). The arguments
are the stripped constructor fields `clova_secret_key`, `client_id`,
`client_secret`; a yield happens only when the guarding fields are
non-empty, secret-key candidate first, then the gateway key pair. -/
def metadataSets (clovaSecretKey clientId clientSecret : String) : List Metadata :=
  (if clovaSecretKey ≠ "" then [[("x-clovaspeech-api-key", clovaSecretKey)]] else []) ++
  (if clientId ≠ "" ∧ clientSecret ≠ "" then
    [[("x-ncp-apigw-api-keyid", clientId), ("x-ncp-apigw-api-key", clientSecret)]]
  else [])

/-- A gRPC error as seen by the `except grpc.aio.AioRpcError` handler:
its status-code name (the string `e.code().name`) and an identity tag that
distinguishes distinct exception objects. -/
structure RpcError where
  code : String
  id : Nat
  deriving DecidableEq

/-- Result of one stream attempt for one (metadata, method) pair, the
classification made by the source's `try/except`: the stream ran to
completion (`ok`), an `AioRpcError` was raised, or some other exception
was raised. -/
inductive AttemptOutcome
  | ok
  | rpcErr (e : RpcError)
  | exc (id : Nat)
  deriving DecidableEq

/-- An exception value as stored in `last_error` or raised by `recognize`:
an `AioRpcError`, another exception, or the final
`RuntimeError("No valid metadata/method combination succeeded.")`. -/
inductive PyErr
  | rpc (e : RpcError)
  | exc (id : Nat)
  | runtimeNoCombo
  deriving DecidableEq

/-- How a call of `recognize` ends: the negotiated stream was consumed to
completion for some (metadata, method) pair, or an exception was raised. -/
inductive RecResult
  | streamed (md : Metadata) (m : Method)
  | raised (e : PyErr)
  deriving DecidableEq

/-- The exception object corresponding to a failed attempt outcome
(`runtimeNoCombo` is a dummy for the `ok` case, which raises nothing). -/
def pyErrOf : AttemptOutcome → PyErr
  | AttemptOutcome.ok => PyErr.runtimeNoCombo
  | AttemptOutcome.rpcErr e => PyErr.rpc e
  | AttemptOutcome.exc i => PyErr.exc i

/-- Inner `for method in _METHOD_CANDIDATES` loop of `recognize`
(lines 100-140) for one metadata set `md`, threading `last_error`.
Returns the attempted (metadata, method) pairs in order, `some result`
when the whole call ends inside this loop (successful stream, or an
exception propagating), `none` when the loop falls through to the next
metadata set (`continue` on UNIMPLEMENTED until exhaustion, or `break` on
UNAUTHENTICATED / PERMISSION_DENIED), and the updated `last_error`. -/
def tryMethodsC (attempt : Metadata → Method → AttemptOutcome) (md : Metadata) :
    List Method → Option PyErr →
      List (Metadata × Method) × Option RecResult × Option PyErr
  | [], last => ([], none, last)
  | m :: rest, last =>
    match attempt md m with
    | AttemptOutcome.ok => ([(md, m)], some (RecResult.streamed md m), last)
    | AttemptOutcome.rpcErr e =>
      if e.code = "UNIMPLEMENTED" then
        let r := tryMethodsC attempt md rest (some (PyErr.rpc e))
        ((md, m) :: r.1, r.2.1, r.2.2)
      else if e.code = "UNAUTHENTICATED" ∨ e.code = "PERMISSION_DENIED" then
        ([(md, m)], none, some (PyErr.rpc e))
      else
        ([(md, m)], some (RecResult.raised (PyErr.rpc e)), some (PyErr.rpc e))
    | AttemptOutcome.exc i =>
      ([(md, m)], some (RecResult.raised (PyErr.exc i)), some (PyErr.exc i))

/-- Outer `for md in self._metadata_sets()` loop of `recognize`
(lines 99-144), threading `last_error`; when both loops are exhausted the
stored `last_error` is raised, or the final `RuntimeError` if no attempt
was ever made. Returns the attempted pairs in order and the call result. -/
def recognizeC (attempt : Metadata → Method → AttemptOutcome) (methods : List Method) :
    List Metadata → Option PyErr → List (Metadata × Method) × RecResult
  | [], last => ([], RecResult.raised (last.getD PyErr.runtimeNoCombo))
  | md :: mds, last =>
    let r := tryMethodsC attempt md methods last
    match r.2.1 with
    | some res => (r.1, res)
    | none =>
      let r2 := recognizeC attempt methods mds r.2.2
      (r.1 ++ r2.1, r2.2)

/-- Embeds `ClovaSpeechClient.recognize` (lines 87-144): run the
negotiation loops over the given candidate lists with `last_error`
initially unset. -/
def recognize (attempt : Metadata → Method → AttemptOutcome)
    (mds : List Metadata) (methods : List Method) :
    List (Metadata × Method) × RecResult :=
  recognizeC attempt methods mds none

/-- Attempt classification in the spec's vocabulary:
`Success | RetryEndpoint | RetryCredential | Fatal`. -/
inductive SpecClass
  | success
  | retryEndpoint
  | retryCredential
  | fatal
  deriving DecidableEq

/-- Classifies an attempt outcome the way the claims do: UNIMPLEMENTED is
endpoint-class, UNAUTHENTICATED / PERMISSION_DENIED are credential-class,
every other gRPC status and every non-gRPC exception is fatal. -/
def classify : AttemptOutcome → SpecClass
  | AttemptOutcome.ok => SpecClass.success
  | AttemptOutcome.rpcErr e =>
    if e.code = "UNIMPLEMENTED" then SpecClass.retryEndpoint
    else if e.code = "UNAUTHENTICATED" ∨ e.code = "PERMISSION_DENIED" then
      SpecClass.retryCredential
    else SpecClass.fatal
  | AttemptOutcome.exc _ => SpecClass.fatal

/-- Follows the spec's words (reference side of the refinement for the
negotiation order): scanning the method list for one credential, visiting
each method in order; a success or a fatal outcome stops the whole
negotiation (`some true` / `some false`), an endpoint-class failure
advances to the next method, a credential-class failure abandons the
remaining methods (`none` hands control to the next credential). -/
def specVisitInner (attempt : Metadata → Method → AttemptOutcome) (md : Metadata) :
    List Method → List (Metadata × Method) × Option Bool
  | [] => ([], none)
  | m :: rest =>
    match classify (attempt md m) with
    | SpecClass.success => ([(md, m)], some true)
    | SpecClass.retryEndpoint =>
      let r := specVisitInner attempt md rest
      ((md, m) :: r.1, r.2)
    | SpecClass.retryCredential => ([(md, m)], none)
    | SpecClass.fatal => ([(md, m)], some false)

/-- Follows the spec's words (reference side of the refinement): the
combinations visited by the negotiation, credential as the outer loop,
stopping at the first success or fatal outcome. -/
def specVisit (attempt : Metadata → Method → AttemptOutcome) (methods : List Method) :
    List Metadata → List (Metadata × Method)
  | [] => []
  | md :: mds =>
    let r := specVisitInner attempt md methods
    match r.2 with
    | some _ => r.1
    | none => r.1 ++ specVisit attempt methods mds

/-- All (credential, method) pairs in lexicographic priority order,
credential outer, method inner. -/
def lexPairs : List Metadata → List Method → List (Metadata × Method)
  | [], _ => []
  | md :: mds, methods => (methods.map fun m => (md, m)) ++ lexPairs mds methods

/-- Embeds main.py line 250:
`lang_short = (lang or "ko-KR").split("-")[0].lower()`. The first segment
of `split("-")` is the longest dash-free initial segment. -/
def langShort (lang : String) : String :=
  let l := if lang = "" then "ko-KR" else lang
  String.mk ((l.toList.takeWhile fun c => c ≠ '-').map Char.toLower)

/-- A JSON value as produced by `json.loads` on a response payload. -/
inductive Json
  | null
  | bool (b : Bool)
  | num (n : Int)
  | str (s : String)
  | arr (elems : List Json)
  | obj (fields : List (String × Json))

/-- Python truthiness of a JSON value, used by the source's
`bool(tr.get("final", False))` coercions. -/
def Json.truthy : Json → Bool
  | Json.null => false
  | Json.bool b => b
  | Json.num n => n != 0
  | Json.str s => s != ""
  | Json.arr elems => !elems.isEmpty
  | Json.obj fields => !fields.isEmpty

/-- A JSON message sent to the WebSocket sink: a recognition result
`{"text": ..., "is_final": ...}` or a diagnostic `{"debug": ...}`. -/
inductive WsMsg
  | result (text : Json) (isFinal : Bool)
  | debug (raw : String)

/-- The flat-shape fallback of `response_handler` (main.py lines 285-294):
a payload with a top-level "text" key is forwarded with its "is_final"
flag (defaulting to false), anything else goes out verbatim as debug. -/
def flatCheck (fields : List (String × Json)) (contents : String) : List WsMsg :=
  if (List.lookup "text" fields).isSome then
    [WsMsg.result ((List.lookup "text" fields).getD (Json.str ""))
      ((List.lookup "is_final" fields).getD (Json.bool false)).truthy]
  else [WsMsg.debug contents]

/-- Embeds the normalisation of one backend response by
`response_handler` (main.py lines 267-297): empty `contents` is skipped;
a parse failure forwards the raw string as debug; a dict payload whose
"transcription" value is a dict containing "text" yields a result from
the nested shape; otherwise a dict with a top-level "text" yields a
result from the flat shape; everything else goes out verbatim as debug. -/
def handleContents (contents : String) (parsed : Option Json) : List WsMsg :=
  if contents = "" then []
  else
    match parsed with
    | none => [WsMsg.debug contents]
    | some (Json.obj fields) =>
      match List.lookup "transcription" fields with
      | some (Json.obj tr) =>
        if (List.lookup "text" tr).isSome then
          [WsMsg.result ((List.lookup "text" tr).getD (Json.str ""))
            ((List.lookup "final" tr).getD (Json.bool false)).truthy]
        else flatCheck fields contents
      | _ => flatCheck fields contents
    | some _ => [WsMsg.debug contents]

/-- The inbound relay over a whole response stream: each response is the
extracted `contents` string paired with its `json.loads` outcome. -/
def responseHandler : List (String × Option Json) → List WsMsg
  | [] => []
  | r :: rest => handleContents r.1 r.2 ++ responseHandler rest

/-- Oracle for witnesses: every attempt succeeds. -/
def attemptAllOk : Metadata → Method → AttemptOutcome := fun _ _ => AttemptOutcome.ok

/-- Oracle for witnesses: every attempt is rejected as UNAUTHENTICATED. -/
def attemptAllAuthFail : Metadata → Method → AttemptOutcome :=
  fun _ _ => AttemptOutcome.rpcErr ⟨"UNAUTHENTICATED", 0⟩

/-- Extra sentinels after the first are invisible to the sequencer: the
message stream only depends on the queue contents up to the first
sentinel. -/
theorem requestIterBody_stop_first_sentinel (pre rest : List QItem) :
    requestIterBody (pre ++ none :: rest) = requestIterBody (pre ++ [none]) := by
  induction pre with
  | nil => simp [requestIterBody]
  | cons a pre ih =>
    cases a with
    | none => simp [requestIterBody]
    | some c =>
      by_cases hc : c = []
      · simp [requestIterBody, hc, ih]
      · simp [requestIterBody, hc, ih]

/-- Claim C2: for the dequeued sequence `[c1, "", c2, SENTINEL]` with `c1`,
`c2` non-empty, `_request_iter` produces exactly Config, Data(c1),
Data(c2) in that order and then ends the outbound stream; the empty chunk
produces no message, and for every queue the first message is always the
Config message. -/
theorem c2_outbound_sequence (lang : String) :
    (∀ c1 c2 : Chunk, c1 ≠ [] → c2 ≠ [] →
      requestIter lang [some c1, some [], some c2, none] =
        [RecognitionRequest.config (mkConfig lang),
         RecognitionRequest.audioContent c1, RecognitionRequest.audioContent c2]) ∧
    (∀ q : List QItem,
      (requestIter lang q).head? = some (RecognitionRequest.config (mkConfig lang))) := by
  constructor
  · intro c1 c2 h1 h2
    simp [requestIter, requestIterBody, h1, h2]
  · intro q
    simp [requestIter]

/-- Witness for C2 at a concrete input. -/
theorem c2_outbound_sequence_witness :
    requestIter "ko-KR" [some [1], some [], some [2], none] =
      [RecognitionRequest.config (mkConfig "ko-KR"),
       RecognitionRequest.audioContent [1], RecognitionRequest.audioContent [2]] :=
  (c2_outbound_sequence "ko-KR").1 [1] [2] (by decide) (by decide)

/-- Claim C8: only the first sentinel dequeued is meaningful — whatever is
enqueued after a sentinel (in particular further sentinels, as the
shutdown path of `main.py` does on disconnect and again in its `finally`
block) changes nothing about the produced wire messages. -/
theorem c8_first_sentinel_only (lang : String) (pre rest : List QItem) :
    requestIter lang (pre ++ none :: rest) = requestIter lang (pre ++ [none]) := by
  simp [requestIter, requestIterBody_stop_first_sentinel]

/-- The Data messages of `_request_iter` are exactly the non-empty chunks
dequeued before the first sentinel, in FIFO order. -/
theorem audioChunks_requestIterBody (q : List QItem) :
    audioChunks (requestIterBody q) =
      ((q.takeWhile Option.isSome).filterMap id).filter (fun c => c ≠ []) := by
  induction q with
  | nil => simp [requestIterBody, audioChunks]
  | cons a rest ih =>
    cases a with
    | none => simp [requestIterBody, audioChunks, List.takeWhile_cons]
    | some c =>
      by_cases hc : c = []
      · simp [requestIterBody, audioChunks, List.takeWhile_cons, hc] at ih ⊢
        exact ih
      · simp [requestIterBody, audioChunks, List.takeWhile_cons, hc] at ih ⊢
        exact ih

/-- Claim C5 (amended): for every dequeued non-empty chunk before the
first sentinel, exactly one Data message carrying that chunk is emitted,
in FIFO order of enqueueing; the Variant A messages carry no sequence-id
field. -/
theorem c5_data_messages_fifo (lang : String) (q : List QItem) :
    audioChunks (requestIter lang q) =
      ((q.takeWhile Option.isSome).filterMap id).filter (fun c => c ≠ []) := by
  have h := audioChunks_requestIterBody q
  simpa [requestIter, audioChunks] using h

/-- Claim C5 counterexample: two equal chunks produce two identical Data
messages, so no assignment of a sequence id to the wire messages can be
strictly increasing along the Data messages of the run — the Variant A
messages built by `_request_iter` carry no sequence id. -/
theorem c5_counterexample :
    dataMessages (requestIter "ko" [some [7], some [7], none]) =
      [RecognitionRequest.audioContent [7], RecognitionRequest.audioContent [7]] ∧
    ¬ ∃ sid : RecognitionRequest → Nat,
        List.Chain' (fun a b => a < b)
          ((dataMessages (requestIter "ko" [some [7], some [7], none])).map sid) := by
  constructor
  · decide
  · rintro ⟨sid, h⟩
    have he : dataMessages (requestIter "ko" [some [7], some [7], none]) =
        [RecognitionRequest.audioContent [7], RecognitionRequest.audioContent [7]] := by
      decide
    rw [he] at h
    simp [List.chain'_cons] at h

/-- Claim C10: a response whose extracted payload field is empty (missing
attributes read as the empty string) emits nothing to the sink, and the
relay simply moves on to the next response. -/
theorem c10_empty_contents_skipped (p : Option Json) (rest : List (String × Option Json)) :
    handleContents "" p = [] ∧ responseHandler (("", p) :: rest) = responseHandler rest := by
  constructor
  · simp [handleContents]
  · simp [responseHandler, handleContents]

/-- Every chunk carried by a Data message of `_request_iter` was present in
the dequeued sequence it ran over. -/
theorem mem_requestIterBody (q : List QItem) (c : Chunk)
    (h : RecognitionRequest.audioContent c ∈ requestIterBody q) : some c ∈ q := by
  induction q with
  | nil => simp [requestIterBody] at h
  | cons a rest ih =>
    cases a with
    | none => simp [requestIterBody] at h
    | some d =>
      by_cases hd : d = []
      · simp only [requestIterBody, if_pos hd] at h
        exact List.mem_cons_of_mem _ (ih h)
      · simp only [requestIterBody, if_neg hd, List.mem_cons,
          RecognitionRequest.audioContent.injEq] at h
        rcases h with h | h
        · simp [h]
        · exact List.mem_cons_of_mem _ (ih h)

/-- The chunks sent by a full run are a subsequence of the chunk payloads
of the queue it ran over. -/
theorem audioChunks_body_sublist (q : List QItem) :
    (audioChunks (requestIterBody q)).Sublist (q.filterMap id) := by
  induction q with
  | nil => simp [requestIterBody, audioChunks]
  | cons a rest ih =>
    cases a with
    | none => simp [requestIterBody, audioChunks]
    | some c =>
      by_cases hc : c = []
      · simp only [requestIterBody, if_pos hc, List.filterMap_cons_some rfl]
        exact ih.cons c
      · simp only [requestIterBody, if_neg hc, audioChunks, List.filterMap_cons,
          List.filterMap_cons_some rfl]
        exact List.Sublist.cons₂ c ih

/-- Across an attempt aborted after `n` dequeues and a subsequent full
attempt over the remaining queue, each queue occurrence of a chunk is sent
at most once: the combined Data chunks form a subsequence of the queue's
chunk payloads. -/
theorem requestIterN_combined_sublist (n : Nat) (q : List QItem) :
    (audioChunks (requestIterN n q).1 ++
      audioChunks (requestIterBody (requestIterN n q).2)).Sublist (q.filterMap id) := by
  induction n generalizing q with
  | zero =>
    simp only [requestIterN, audioChunks, List.filterMap_nil, List.nil_append]
    exact audioChunks_body_sublist q
  | succ n ih =>
    cases q with
    | nil => simp [requestIterN, requestIterBody, audioChunks]
    | cons a rest =>
      cases a with
      | none =>
        simp only [requestIterN, audioChunks, List.filterMap_nil, List.nil_append,
          List.filterMap_cons, Option.isSome_none]
        exact audioChunks_body_sublist rest
      | some c =>
        by_cases hc : c = []
        · simp only [requestIterN, if_pos hc, List.filterMap_cons_some rfl]
          exact (ih rest).cons c
        · simp only [requestIterN, if_neg hc, audioChunks, List.filterMap_cons,
            List.filterMap_cons_some rfl, List.cons_append]
          exact List.Sublist.cons₂ c (ih rest)

/-- Claim C9: chunks consumed from the shared queue by a failed attempt are
not replayed by a later attempt. A later full attempt only sends chunks
still present in the remaining queue; across the aborted attempt and the
retry no queue occurrence is sent twice; and concretely, a chunk consumed
by the failed attempt is absent from the retry's messages. -/
theorem c9_no_replay (lang : String) :
    (∀ (q : List QItem) (n : Nat) (c : Chunk),
        RecognitionRequest.audioContent c ∈ requestIter lang (requestIterN n q).2 →
          some c ∈ (requestIterN n q).2) ∧
    (∀ (q : List QItem) (n : Nat),
        (audioChunks (requestIterN n q).1 ++
          audioChunks (requestIterBody (requestIterN n q).2)).Sublist (q.filterMap id)) ∧
    (∀ c1 c2 : Chunk, c1 ≠ c2 →
        RecognitionRequest.audioContent c1 ∉
          requestIter lang ((requestIterN 1 [some c1, some c2, none]).2)) := by
  refine ⟨?_, ?_, ?_⟩
  · intro q n c h
    simp only [requestIter, List.mem_cons] at h
    rcases h with h | h
    · exact absurd h (by simp)
    · exact mem_requestIterBody _ _ h
  · intro q n
    exact requestIterN_combined_sublist n q
  · intro c1 c2 hne
    by_cases hc2 : c2 = []
    · simp [requestIter, requestIterN, requestIterBody, hc2]
    · simp [requestIter, requestIterN, requestIterBody, hc2, hne]

/-- Witness for C9 at a concrete input. -/
theorem c9_no_replay_witness :
    RecognitionRequest.audioContent [1] ∉
      requestIter "ko" ((requestIterN 1 [some [1], some [2], none]).2) :=
  (c9_no_replay "ko").2.2 [1] [2] (by decide)

/-- The first `split("-")` segment of a dash-free list followed by a dash
is the dash-free list itself. -/
theorem takeWhile_until_dash (cs ds : List Char) (h : '-' ∉ cs) :
    (cs ++ '-' :: ds).takeWhile (fun c => c ≠ '-') = cs := by
  induction cs with
  | nil => simp [List.takeWhile_cons]
  | cons c cs ih =>
    have hc : c ≠ '-' := fun hcc => h (by simp [hcc])
    have h2 : '-' ∉ cs := fun hm => h (List.mem_cons_of_mem _ hm)
    have hr := ih h2
    simp only [List.cons_append, List.takeWhile_cons]
    simp [hc]
    simpa using hr

/-- A dash-free list is its own first `split("-")` segment. -/
theorem takeWhile_of_no_dash (cs : List Char) (h : '-' ∉ cs) :
    cs.takeWhile (fun c => c ≠ '-') = cs := by
  induction cs with
  | nil => simp
  | cons c cs ih =>
    have hc : c ≠ '-' := fun hcc => h (by simp [hcc])
    have h2 : '-' ∉ cs := fun hm => h (List.mem_cons_of_mem _ hm)
    simp [List.takeWhile_cons, hc]
    intro x hx hx'
    exact h2 (hx' ▸ hx)

/-- Claim C4 counterexample: the code maps the tag zh-CN to zh (the dash
split applies to it like to every other tag), not to zh-CN unchanged as
the claim states. -/
theorem c4_counterexample :
    langShort "zh-CN" = "zh" ∧ langShort "zh-CN" ≠ "zh-CN" := by
  constructor
  · decide
  · decide

/-- Claim C4 (amended): the short-form mapping strips everything from the
first dash on and lower-cases the remainder, for every tag uniformly:
ko-KR to ko, en-US to en, ja-JP to ja, fr-FR to fr, and also zh-CN to zh
(zh-CN is not passed through unchanged); a dash-free tag is passed through
lower-cased. -/
theorem c4_lang_mapping :
    langShort "ko-KR" = "ko" ∧ langShort "en-US" = "en" ∧ langShort "ja-JP" = "ja" ∧
    langShort "fr-FR" = "fr" ∧ langShort "zh-CN" = "zh" ∧
    (∀ main region : String, '-' ∉ main.toList →
      langShort (main ++ "-" ++ region) = String.mk (main.toList.map Char.toLower)) ∧
    (∀ lang : String, lang ≠ "" → '-' ∉ lang.toList →
      langShort lang = String.mk (lang.toList.map Char.toLower)) := by
  refine ⟨by decide, by decide, by decide, by decide, by decide, ?_, ?_⟩
  · intro main region h
    have hdata : (main ++ "-" ++ region).toList = main.toList ++ '-' :: region.toList := by
      simp [String.toList, String.data_append]
    have hne : main ++ "-" ++ region ≠ "" := by
      intro he
      have hd : (main ++ "-" ++ region).toList = [] := by rw [he]; rfl
      rw [hdata] at hd
      simp at hd
    simp only [langShort, if_neg hne, hdata, takeWhile_until_dash _ _ h]
  · intro lang hne h
    simp only [langShort, if_neg hne, takeWhile_of_no_dash _ h]

/-- Witness for C4 at a concrete input. -/
theorem c4_lang_mapping_witness :
    langShort ("ko" ++ "-" ++ "KR") = String.mk ("ko".toList.map Char.toLower) :=
  (c4_lang_mapping).2.2.2.2.2.1 "ko" "KR" (by decide)

/-- Every candidate yielded by `_metadata_sets` is one of the two known
header sets. -/
theorem mem_metadataSets (sk cid csec : String) (ms : Metadata)
    (h : ms ∈ metadataSets sk cid csec) :
    ms = [("x-clovaspeech-api-key", sk)] ∨
      ms = [("x-ncp-apigw-api-keyid", cid), ("x-ncp-apigw-api-key", csec)] := by
  simp only [metadataSets] at h
  rcases List.mem_append.mp h with h | h
  · by_cases hc : sk ≠ ""
    · simp only [if_pos hc, List.mem_singleton] at h
      exact Or.inl h
    · simp [if_neg hc] at h
  · by_cases hc : cid ≠ "" ∧ csec ≠ ""
    · simp only [if_pos hc, List.mem_singleton] at h
      exact Or.inr h
    · simp [if_neg hc] at h

/-- Claim C3 counterexample: with all three credentials configured, the
first candidate `_metadata_sets` yields is the single secret-key header,
not the paired gateway headers, and only two candidates exist — no
bearer-token authorization candidate at all. -/
theorem c3_counterexample :
    (metadataSets "sk" "id" "sec").head? = some [("x-clovaspeech-api-key", "sk")] ∧
    (metadataSets "sk" "id" "sec").length = 2 ∧
    ∀ ms ∈ metadataSets "sk" "id" "sec", ∀ p ∈ ms, p.1 ≠ "authorization" := by
  refine ⟨by decide, by decide, by decide⟩

/-- Claim C3 (amended): the authentication candidates are tried in priority
order, first the single secret-key header (when configured), second the
paired gateway key-id/key headers (when both are configured); there is no
bearer-token candidate; every header name sent is lower-case. -/
theorem c3_auth_candidates (sk cid csec : String) :
    (sk ≠ "" → (metadataSets sk cid csec).head? = some [("x-clovaspeech-api-key", sk)]) ∧
    (cid ≠ "" → csec ≠ "" →
      (metadataSets sk cid csec).getLast? =
        some [("x-ncp-apigw-api-keyid", cid), ("x-ncp-apigw-api-key", csec)]) ∧
    (∀ ms ∈ metadataSets sk cid csec, ∀ p ∈ ms, ∀ ch ∈ p.1.toList, ch.isUpper = false) := by
  refine ⟨?_, ?_, ?_⟩
  · intro hsk
    simp [metadataSets, hsk]
  · intro h1 h2
    by_cases hsk : sk = "" <;>
      simp [metadataSets, hsk, h1, h2, List.getLast?]
  · intro ms hms p hp
    rcases mem_metadataSets sk cid csec ms hms with h | h <;> subst h
    · simp only [List.mem_singleton] at hp
      subst hp
      show ∀ ch ∈ ("x-clovaspeech-api-key" : String).toList, ch.isUpper = false
      decide
    · simp only [List.mem_cons, List.mem_singleton, List.not_mem_nil, or_false] at hp
      rcases hp with hp | hp <;> subst hp
      · show ∀ ch ∈ ("x-ncp-apigw-api-keyid" : String).toList, ch.isUpper = false
        decide
      · show ∀ ch ∈ ("x-ncp-apigw-api-key" : String).toList, ch.isUpper = false
        decide

/-- Witness for C3's amended claim at a concrete input. -/
theorem c3_auth_candidates_witness :
    (metadataSets "key" "cid" "csec").head? = some [("x-clovaspeech-api-key", "key")] :=
  (c3_auth_candidates "key" "cid" "csec").1 (by decide)

/-- Claim C7: the inbound relay tries shapes in order — a nested
transcription payload is emitted as a result with its text and coerced
final flag (even when a flat "text" key is also present); otherwise a
flat payload with a "text" key is emitted as a result with its "is_final"
flag; any other payload, including a string that fails JSON parsing such
as not-json, is forwarded verbatim as a debug message, never dropped and
never treated as an error. -/
theorem c7_inbound_normalization :
    (∀ raw : String, raw ≠ "" → ∀ t : Json, ∀ b : Bool,
      ∀ trRest kvRest : List (String × Json),
      handleContents raw (some (Json.obj (("transcription",
          Json.obj (("text", t) :: ("final", Json.bool b) :: trRest)) :: kvRest))) =
        [WsMsg.result t b]) ∧
    (∀ raw : String, raw ≠ "" → ∀ t : Json, ∀ b : Bool,
      handleContents raw (some (Json.obj [("text", t), ("is_final", Json.bool b)])) =
        [WsMsg.result t b]) ∧
    (handleContents "not-json" none = [WsMsg.debug "not-json"]) ∧
    (∀ raw : String, raw ≠ "" → ∀ s : String,
      handleContents raw (some (Json.str s)) = [WsMsg.debug raw]) := by
  refine ⟨?_, ?_, ?_, ?_⟩
  · intro raw hraw t b trRest kvRest
    simp only [handleContents, if_neg hraw]
    rfl
  · intro raw hraw t b
    simp only [handleContents, if_neg hraw]
    rfl
  · rfl
  · intro raw hraw s
    simp only [handleContents, if_neg hraw]

/-- Witness for C7 at a concrete input. -/
theorem c7_inbound_normalization_witness :
    handleContents "r" (some (Json.obj [("transcription",
        Json.obj [("text", Json.str "hello"), ("final", Json.bool true)])])) =
      [WsMsg.result (Json.str "hello") true] :=
  c7_inbound_normalization.1 "r" (by decide) (Json.str "hello") true [] []

/-- The inner loop attempts exactly the combinations the spec-side scan
visits, independently of the incoming `last_error`, and falls through to
the next credential exactly when the spec-side scan does. -/
theorem tryMethodsC_trace (attempt : Metadata → Method → AttemptOutcome) (md : Metadata)
    (methods : List Method) (last : Option PyErr) :
    (tryMethodsC attempt md methods last).1 = (specVisitInner attempt md methods).1 ∧
    ((tryMethodsC attempt md methods last).2.1 = none ↔
      (specVisitInner attempt md methods).2 = none) := by
  induction methods generalizing last with
  | nil => simp [tryMethodsC, specVisitInner]
  | cons m rest ih =>
    cases hA : attempt md m with
    | ok => simp [tryMethodsC, specVisitInner, hA, classify]
    | rpcErr e =>
      by_cases h1 : e.code = "UNIMPLEMENTED"
      · have hr := ih (some (PyErr.rpc e))
        simp [tryMethodsC, specVisitInner, hA, classify, h1, hr.1, hr.2]
      · by_cases h2 : e.code = "UNAUTHENTICATED" ∨ e.code = "PERMISSION_DENIED"
        · simp [tryMethodsC, specVisitInner, hA, classify, h1, h2]
        · simp [tryMethodsC, specVisitInner, hA, classify, h1, h2]
    | exc i => simp [tryMethodsC, specVisitInner, hA, classify]

/-- The negotiation loop of `recognize` attempts exactly the combinations
the spec-side scan visits, independently of the threaded `last_error`. -/
theorem recognizeC_trace (attempt : Metadata → Method → AttemptOutcome)
    (methods : List Method) (mds : List Metadata) (last : Option PyErr) :
    (recognizeC attempt methods mds last).1 = specVisit attempt methods mds := by
  induction mds generalizing last with
  | nil => simp [recognizeC, specVisit]
  | cons md mds ih =>
    have h := tryMethodsC_trace attempt md methods last
    cases hR : (tryMethodsC attempt md methods last).2.1 with
    | some res =>
      have hs : (specVisitInner attempt md methods).2 ≠ none := by
        intro hn
        rw [← h.2] at hn
        rw [hR] at hn
        exact Option.noConfusion hn
      obtain ⟨b, hb⟩ := Option.ne_none_iff_exists'.mp hs
      simp [recognizeC, specVisit, hR, hb, h.1]
    | none =>
      have hb : (specVisitInner attempt md methods).2 = none := h.2.mp hR
      simp [recognizeC, specVisit, hR, hb, h.1, ih]

/-- The combinations visited for one credential are a subsequence of that
credential's method row, in method-priority order. -/
theorem specVisitInner_sublist (attempt : Metadata → Method → AttemptOutcome)
    (md : Metadata) (methods : List Method) :
    (specVisitInner attempt md methods).1.Sublist (methods.map fun m => (md, m)) := by
  induction methods with
  | nil => simp [specVisitInner]
  | cons m rest ih =>
    cases hc : classify (attempt md m) with
    | success => simp [specVisitInner, hc]
    | retryEndpoint =>
      simp only [specVisitInner, hc, List.map_cons]
      exact List.Sublist.cons₂ _ ih
    | retryCredential => simp [specVisitInner, hc]
    | fatal => simp [specVisitInner, hc]

/-- The visited combinations are a subsequence of the full candidate grid
in lexicographic priority order (credential outer, method inner). -/
theorem specVisit_sublist (attempt : Metadata → Method → AttemptOutcome)
    (methods : List Method) (mds : List Metadata) :
    (specVisit attempt methods mds).Sublist (lexPairs mds methods) := by
  induction mds with
  | nil => simp [specVisit, lexPairs]
  | cons md mds ih =>
    have h1 := specVisitInner_sublist attempt md methods
    cases hs : (specVisitInner attempt md methods).2 with
    | none =>
      simp only [specVisit, hs, lexPairs]
      exact List.Sublist.append h1 ih
    | some b =>
      simp only [specVisit, hs, lexPairs]
      exact h1.trans (List.sublist_append_left _ _)

/-- Appending keeps a known last element. -/
theorem getLast?_cons_some {α : Type} (a : α) (l : List α) (x : α)
    (h : l.getLast? = some x) : (a :: l).getLast? = some x := by
  cases l with
  | nil => simp at h
  | cons b l => rw [List.getLast?_cons_cons]; exact h

/-- Prepending keeps a known last element. -/
theorem getLast?_append_some {α : Type} (l1 l2 : List α) (x : α)
    (h : l2.getLast? = some x) : (l1 ++ l2).getLast? = some x := by
  induction l1 with
  | nil => simpa
  | cons a l1 ih =>
    rw [List.cons_append]
    exact getLast?_cons_some _ _ _ ih

/-- When the inner loop ends with a successful stream, the successful pair
is the last one attempted and its outcome was `ok`. -/
theorem tryMethodsC_success (attempt : Metadata → Method → AttemptOutcome)
    (mdx : Metadata) (methods : List Method) (last : Option PyErr)
    (md : Metadata) (m : Method)
    (h : (tryMethodsC attempt mdx methods last).2.1 = some (RecResult.streamed md m)) :
    (tryMethodsC attempt mdx methods last).1.getLast? = some (md, m) ∧
      attempt md m = AttemptOutcome.ok := by
  induction methods generalizing last with
  | nil => simp [tryMethodsC] at h
  | cons m0 rest ih =>
    cases hA : attempt mdx m0 with
    | ok =>
      simp only [tryMethodsC, hA, Option.some.injEq, RecResult.streamed.injEq] at h
      obtain ⟨h1, h2⟩ := h
      subst h1
      subst h2
      simp [tryMethodsC, hA]
    | rpcErr e =>
      by_cases h1 : e.code = "UNIMPLEMENTED"
      · simp only [tryMethodsC, hA, if_pos h1] at h ⊢
        have hr := ih (some (PyErr.rpc e)) h
        exact ⟨getLast?_cons_some _ _ _ hr.1, hr.2⟩
      · by_cases h2 : e.code = "UNAUTHENTICATED" ∨ e.code = "PERMISSION_DENIED"
        · simp [tryMethodsC, hA, h1, h2] at h
        · simp [tryMethodsC, hA, h1, h2] at h
    | exc i => simp [tryMethodsC, hA] at h

/-- When `recognize`'s loops end with a successful stream, the successful
pair is the last one attempted and its outcome was `ok`. -/
theorem recognizeC_success (attempt : Metadata → Method → AttemptOutcome)
    (methods : List Method) (mds : List Metadata) (last : Option PyErr)
    (md : Metadata) (m : Method)
    (h : (recognizeC attempt methods mds last).2 = RecResult.streamed md m) :
    (recognizeC attempt methods mds last).1.getLast? = some (md, m) ∧
      attempt md m = AttemptOutcome.ok := by
  induction mds generalizing last with
  | nil => simp [recognizeC] at h
  | cons md0 mds ih =>
    cases hR : (tryMethodsC attempt md0 methods last).2.1 with
    | some res =>
      have hres : res = RecResult.streamed md m := by
        simp only [recognizeC, hR] at h
        exact h
      subst hres
      have h5 := tryMethodsC_success attempt md0 methods last md m hR
      simp only [recognizeC, hR]
      exact h5
    | none =>
      simp only [recognizeC, hR] at h ⊢
      have hr := ih (tryMethodsC attempt md0 methods last).2.2 h
      exact ⟨getLast?_append_some _ _ _ hr.1, hr.2⟩

/-- Claim C1: for every pair of ranked candidate lists, the negotiation
loop of `recognize` visits (credential, endpoint) combinations exactly as
the spec-side scan `specVisit` prescribes — credential as the outer loop
and endpoint as the inner loop, an endpoint-class failure advancing only
the endpoint, a credential-class failure abandoning the remaining
endpoints of that credential — the visited combinations are a subsequence
of the full grid in strict priority order, and a successful stream is
always the last combination attempted (nothing further is tried). -/
theorem c1_negotiation_order (attempt : Metadata → Method → AttemptOutcome)
    (mds : List Metadata) (methods : List Method) :
    (recognize attempt mds methods).1 = specVisit attempt methods mds ∧
    (recognize attempt mds methods).1.Sublist (lexPairs mds methods) ∧
    (∀ md m, (recognize attempt mds methods).2 = RecResult.streamed md m →
      (recognize attempt mds methods).1.getLast? = some (md, m) ∧
        attempt md m = AttemptOutcome.ok) := by
  refine ⟨recognizeC_trace attempt methods mds none, ?_, ?_⟩
  · have h := recognizeC_trace attempt methods mds none
    rw [recognize, h]
    exact specVisit_sublist attempt methods mds
  · intro md m h
    exact recognizeC_success attempt methods mds none md m h

/-- Witness for C1 at a concrete input. -/
theorem c1_negotiation_order_witness :
    (recognize attemptAllOk [[("x-clovaspeech-api-key", "sk")]] METHOD_CANDIDATES).1.getLast? =
      some ([("x-clovaspeech-api-key", "sk")],
        "/ncloud.ai.clovaspeech.v1.ClovaSpeechRecognizer/Recognize") ∧
    attemptAllOk [("x-clovaspeech-api-key", "sk")]
      "/ncloud.ai.clovaspeech.v1.ClovaSpeechRecognizer/Recognize" = AttemptOutcome.ok :=
  (c1_negotiation_order attemptAllOk [[("x-clovaspeech-api-key", "sk")]]
    METHOD_CANDIDATES).2.2 _ _ (by rfl)

/-- A retry-class outcome is an `AioRpcError`. -/
theorem classify_retry_code (o : AttemptOutcome)
    (h : classify o = SpecClass.retryEndpoint ∨ classify o = SpecClass.retryCredential) :
    ∃ e, o = AttemptOutcome.rpcErr e := by
  cases o with
  | ok => simp [classify] at h
  | rpcErr e => exact ⟨e, rfl⟩
  | exc i => simp [classify] at h

/-- When every method of a non-empty method list fails with a retry-class
error for credential `md`, the inner loop falls through with `last_error`
set to the error of the last pair it attempted. -/
theorem tryMethodsC_all_retry (attempt : Metadata → Method → AttemptOutcome)
    (md : Metadata) :
    ∀ methods : List Method,
      (∀ m ∈ methods, classify (attempt md m) = SpecClass.retryEndpoint ∨
        classify (attempt md m) = SpecClass.retryCredential) →
      methods ≠ [] → ∀ last : Option PyErr,
      (tryMethodsC attempt md methods last).2.1 = none ∧
        ∃ m e, (tryMethodsC attempt md methods last).1.getLast? = some (md, m) ∧
          attempt md m = AttemptOutcome.rpcErr e ∧
          (tryMethodsC attempt md methods last).2.2 = some (PyErr.rpc e) := by
  intro methods
  induction methods with
  | nil => intro _ hne; exact absurd rfl hne
  | cons m0 rest ih =>
    intro hr _ last
    have hm0 := hr m0 (List.mem_cons_self _ _)
    obtain ⟨e, he⟩ := classify_retry_code _ hm0
    rw [he] at hm0
    by_cases h1 : e.code = "UNIMPLEMENTED"
    · cases rest with
      | nil =>
        refine ⟨by simp [tryMethodsC, he, h1], m0, e, ?_, he, ?_⟩
        · simp [tryMethodsC, he, h1]
        · simp [tryMethodsC, he, h1]
      | cons m1 rest' =>
        have ihr := ih (fun m hm => hr m (List.mem_cons_of_mem _ hm)) (by simp)
          (some (PyErr.rpc e))
        obtain ⟨hnone, m, e', hlast, hA, herr⟩ := ihr
        refine ⟨?_, m, e', ?_, hA, ?_⟩
        · simp only [tryMethodsC, he, if_pos h1]
          exact hnone
        · simp only [tryMethodsC, he, if_pos h1]
          exact getLast?_cons_some _ _ _ hlast
        · simp only [tryMethodsC, he, if_pos h1]
          exact herr
    · by_cases h2 : e.code = "UNAUTHENTICATED" ∨ e.code = "PERMISSION_DENIED"
      · refine ⟨by simp [tryMethodsC, he, h1, h2], m0, e, ?_, he, ?_⟩
        · simp [tryMethodsC, he, h1, h2]
        · simp [tryMethodsC, he, h1, h2]
      · simp [classify, h1, h2] at hm0

/-- When every candidate combination fails with a retry-class error, the
negotiation loop exhausts the candidates and raises the error of the last
combination it attempted. -/
theorem recognizeC_all_retry (attempt : Metadata → Method → AttemptOutcome)
    (methods : List Method) (hm : methods ≠ []) :
    ∀ mds : List Metadata, mds ≠ [] →
      (∀ md ∈ mds, ∀ m ∈ methods,
        classify (attempt md m) = SpecClass.retryEndpoint ∨
          classify (attempt md m) = SpecClass.retryCredential) →
      ∀ last : Option PyErr, ∃ md m e,
        (recognizeC attempt methods mds last).1.getLast? = some (md, m) ∧
        attempt md m = AttemptOutcome.rpcErr e ∧
        (recognizeC attempt methods mds last).2 = RecResult.raised (PyErr.rpc e) := by
  intro mds
  induction mds with
  | nil => intro h; exact absurd rfl h
  | cons md0 mds ih =>
    intro _ hr last
    have h7 := tryMethodsC_all_retry attempt md0 methods
      (hr md0 (List.mem_cons_self _ _)) hm last
    obtain ⟨hnone, m1, e1, hlast1, hA1, herr1⟩ := h7
    cases mds with
    | nil =>
      refine ⟨md0, m1, e1, ?_, hA1, ?_⟩
      · simp only [recognizeC, hnone, List.append_nil]
        exact hlast1
      · simp only [recognizeC, hnone, herr1, Option.getD_some]
    | cons md1 mds' =>
      have ihr := ih (by simp)
        (fun md hmd m hm2 => hr md (List.mem_cons_of_mem _ hmd) m hm2)
        (tryMethodsC attempt md0 methods last).2.2
      obtain ⟨md', m', e', hl', hA', hres'⟩ := ihr
      refine ⟨md', m', e', ?_, hA', ?_⟩
      · simp only [recognizeC, hnone]
        exact getLast?_append_some _ _ _ hl'
      · simp only [recognizeC, hnone]
        exact hres'

/-- A fatal outcome stops the inner loop at once: a fatally-failing pair
that was attempted is the last pair attempted, and its exception is the
loop's result. -/
theorem tryMethodsC_fatal (attempt : Metadata → Method → AttemptOutcome)
    (mdx : Metadata) :
    ∀ (methods : List Method) (last : Option PyErr) (md : Metadata) (m : Method),
      (md, m) ∈ (tryMethodsC attempt mdx methods last).1 →
      classify (attempt md m) = SpecClass.fatal →
      (tryMethodsC attempt mdx methods last).2.1 =
          some (RecResult.raised (pyErrOf (attempt md m))) ∧
        (tryMethodsC attempt mdx methods last).1.getLast? = some (md, m) := by
  intro methods
  induction methods with
  | nil =>
    intro last md m hmem
    simp [tryMethodsC] at hmem
  | cons m0 rest ih =>
    intro last md m hmem hfatal
    cases hA : attempt mdx m0 with
    | ok =>
      simp only [tryMethodsC, hA, List.mem_singleton, Prod.mk.injEq] at hmem
      obtain ⟨hx, hy⟩ := hmem
      subst hx
      subst hy
      rw [hA] at hfatal
      simp [classify] at hfatal
    | rpcErr e =>
      by_cases h1 : e.code = "UNIMPLEMENTED"
      · simp only [tryMethodsC, hA, if_pos h1, List.mem_cons, Prod.mk.injEq] at hmem
        rcases hmem with ⟨hx, hy⟩ | hmem
        · subst hx
          subst hy
          rw [hA] at hfatal
          simp [classify, h1] at hfatal
        · have hr := ih (some (PyErr.rpc e)) md m hmem hfatal
          simp only [tryMethodsC, hA, if_pos h1]
          exact ⟨hr.1, getLast?_cons_some _ _ _ hr.2⟩
      · by_cases h2 : e.code = "UNAUTHENTICATED" ∨ e.code = "PERMISSION_DENIED"
        · simp only [tryMethodsC, hA, if_neg h1, if_pos h2, List.mem_singleton,
            Prod.mk.injEq] at hmem
          obtain ⟨hx, hy⟩ := hmem
          subst hx
          subst hy
          rw [hA] at hfatal
          simp [classify, h1, h2] at hfatal
        · simp only [tryMethodsC, hA, if_neg h1, if_neg h2, List.mem_singleton,
            Prod.mk.injEq] at hmem
          obtain ⟨hx, hy⟩ := hmem
          subst hx
          subst hy
          simp [tryMethodsC, hA, h1, h2, pyErrOf]
    | exc i =>
      simp only [tryMethodsC, hA, List.mem_singleton, Prod.mk.injEq] at hmem
      obtain ⟨hx, hy⟩ := hmem
      subst hx
      subst hy
      simp [tryMethodsC, hA, pyErrOf]

/-- A fatal outcome stops the whole negotiation at once: a fatally-failing
pair that was attempted is the last pair attempted, and `recognize` raises
its exception. -/
theorem recognizeC_fatal (attempt : Metadata → Method → AttemptOutcome)
    (methods : List Method) :
    ∀ (mds : List Metadata) (last : Option PyErr) (md : Metadata) (m : Method),
      (md, m) ∈ (recognizeC attempt methods mds last).1 →
      classify (attempt md m) = SpecClass.fatal →
      (recognizeC attempt methods mds last).1.getLast? = some (md, m) ∧
        (recognizeC attempt methods mds last).2 =
          RecResult.raised (pyErrOf (attempt md m)) := by
  intro mds
  induction mds with
  | nil =>
    intro last md m hmem
    simp [recognizeC] at hmem
  | cons md0 mds ih =>
    intro last md m hmem hfatal
    cases hR : (tryMethodsC attempt md0 methods last).2.1 with
    | some res =>
      have hmem' : (md, m) ∈ (tryMethodsC attempt md0 methods last).1 := by
        simpa [recognizeC, hR] using hmem
      have h9 := tryMethodsC_fatal attempt md0 methods last md m hmem' hfatal
      have hres : res = RecResult.raised (pyErrOf (attempt md m)) := by
        have h91 := h9.1
        rw [hR] at h91
        exact Option.some.inj h91
      simp only [recognizeC, hR]
      exact ⟨h9.2, hres⟩
    | none =>
      have hsplit : (md, m) ∈ (tryMethodsC attempt md0 methods last).1 ∨
          (md, m) ∈ (recognizeC attempt methods mds
            (tryMethodsC attempt md0 methods last).2.2).1 := by
        simpa [recognizeC, hR, List.mem_append] using hmem
      rcases hsplit with hin | hin
      · have h9 := tryMethodsC_fatal attempt md0 methods last md m hin hfatal
        have h91 := h9.1
        rw [hR] at h91
        exact Option.noConfusion h91
      · have h10 := ih (tryMethodsC attempt md0 methods last).2.2 md m hin hfatal
        constructor
        · simp only [recognizeC, hR]
          exact getLast?_append_some _ _ _ h10.1
        · simp only [recognizeC, hR]
          exact h10.2

/-- Claim C6: if every candidate (credential, endpoint) combination fails
with a retry-class error, `recognize` exhausts the candidate loops and
raises an aggregated failure carrying the last observed error (the error
of the last combination it attempted); and if any attempted combination
fails with a fatal-class error — any other gRPC status or a non-gRPC
exception — `recognize` raises it immediately, that combination being the
last one attempted. -/
theorem c6_error_policy (attempt : Metadata → Method → AttemptOutcome)
    (mds : List Metadata) (methods : List Method) :
    ((∀ md ∈ mds, ∀ m ∈ methods,
        classify (attempt md m) = SpecClass.retryEndpoint ∨
          classify (attempt md m) = SpecClass.retryCredential) →
      mds ≠ [] → methods ≠ [] →
      ∃ md m e, (recognize attempt mds methods).1.getLast? = some (md, m) ∧
        attempt md m = AttemptOutcome.rpcErr e ∧
        (recognize attempt mds methods).2 = RecResult.raised (PyErr.rpc e)) ∧
    (∀ md m, (md, m) ∈ (recognize attempt mds methods).1 →
      classify (attempt md m) = SpecClass.fatal →
      (recognize attempt mds methods).1.getLast? = some (md, m) ∧
        (recognize attempt mds methods).2 =
          RecResult.raised (pyErrOf (attempt md m))) := by
  constructor
  · intro hr hmds hm
    exact recognizeC_all_retry attempt methods hm mds hmds hr none
  · intro md m hmem hfatal
    exact recognizeC_fatal attempt methods mds none md m hmem hfatal

/-- Witness for C6 at a concrete input. -/
theorem c6_error_policy_witness :
    ∃ md m e,
      (recognize attemptAllAuthFail (metadataSets "sk" "id" "sec")
          METHOD_CANDIDATES).1.getLast? = some (md, m) ∧
      attemptAllAuthFail md m = AttemptOutcome.rpcErr e ∧
      (recognize attemptAllAuthFail (metadataSets "sk" "id" "sec")
          METHOD_CANDIDATES).2 = RecResult.raised (PyErr.rpc e) :=
  (c6_error_policy attemptAllAuthFail (metadataSets "sk" "id" "sec")
    METHOD_CANDIDATES).1 (by decide) (by decide) (by decide)
